import Mathlib

/-!
Verification development for the mental-health dashboard (`app.py`).

The program is a single linear script: it loads every `*.csv` file of its
directory into one unified table (`load_data`, lines 50-62), filters that
table by a source-file selector and an optional year range (lines 84-91),
and dispatches to one of five chart renderers (lines 108-160).

The shallow embedding below models a data frame as a list of rows over a
list of column labels; a cell is `Option Val`, where `none` models a
missing value (NaN).  Numbers are rationals; Python `int()` truncation is
`Int.tdiv`.  Regex `\w` is modelled at its ASCII meaning `[A-Za-z0-9_]`,
and `str.lower()` at its ASCII meaning, since the embedding treats column
labels as ASCII text.  Pandas semantics relevant here: comparisons against
NaN are false, `groupby` drops missing keys and sorts, `mean` skips
missing values (NaN when no value remains), `sort_values` puts NaN last
for either direction, and `nlargest` drops NaN.
-/

namespace App

/-- A scalar cell value of the frame: textual or numeric. -/
inductive Val where
  | str (s : String)
  | num (q : ℚ)
deriving DecidableEq, Repr

/-- A cell; `none` models a missing value (NaN). -/
abbrev Cell := Option Val

/-- An in-memory data frame: column labels, and rows of cells listed in
column order. -/
structure Table where
  cols : List String
  rows : List (List Cell)
deriving DecidableEq, Repr

/-- ASCII lowering of one character, modelling `.str.lower()` on ASCII
column labels (app.py line 58). -/
def lowChar (c : Char) : Char :=
  if 65 ≤ c.toNat ∧ c.toNat ≤ 90 then Char.ofNat (c.toNat + 32) else c

/-- ASCII word character, the meaning of regex `\w` used at app.py line 59. -/
def isWordChar (c : Char) : Bool :=
  (65 ≤ c.toNat && c.toNat ≤ 90) || (97 ≤ c.toNat && c.toNat ≤ 122) ||
    (48 ≤ c.toNat && c.toNat ≤ 57) || c.toNat == 95

/-- Replace each maximal run of non-word characters by a single underscore,
the effect of `.str.replace(r"[^\w]+", "_", regex=True)` (app.py line 59).
The boolean records whether the previous character belonged to a run that
has already emitted its underscore. -/
def collapseRuns : Bool → List Char → List Char
  | _, [] => []
  | inRun, c :: cs =>
    if isWordChar c then c :: collapseRuns false cs
    else if inRun then collapseRuns true cs
    else '_' :: collapseRuns true cs

/-- Column-name normalization of app.py lines 57-60: lowercase, then
collapse runs of non-word characters to one underscore. -/
def normalizeName (s : String) : String :=
  String.mk (collapseRuns false (s.data.map lowChar))

/-- One parsed input file: its name, the header of the parsed frame, and
its data rows. -/
structure CsvFile where
  name : String
  header : List String
  data : List (List Cell)
deriving DecidableEq, Repr

/-- Column labels of one loaded frame: the original header, then the
appended `source_file` column, all normalized — app.py adds the column
(line 56) before assigning the normalized labels (lines 57-60). -/
def fileCols (f : CsvFile) : List String :=
  (f.header ++ ["source_file"]).map normalizeName

/-- Rows of one loaded frame after tagging each with the file name. -/
def fileRows (f : CsvFile) : List (List Cell) :=
  f.data.map (fun r => r ++ [some (Val.str f.name)])

/-- Cell of a row under a given column label (first occurrence of the
label); `none` when the label is absent, as for rows of a concatenated
frame that lacked the column. -/
def getCell (cols : List String) (c : String) (row : List Cell) : Cell :=
  match cols.indexOf? c with
  | some i => row.getD i none
  | none => none

/-- Union of the column lists in order of first appearance: the column
alignment `pd.concat` performs. -/
def unionCols (ls : List (List String)) : List String :=
  ls.foldl (fun acc cs => cs.foldl (fun a c => if c ∈ a then a else a ++ [c]) acc) []

/-- `load_data` (app.py lines 50-62): parse every csv, tag `source_file`,
normalize column labels, and concatenate row-wise with `ignore_index`,
aligning columns and filling missing ones with NaN.  `none` models the
`ValueError` that `pd.concat` raises on an empty list of frames. -/
def load_data (files : List CsvFile) : Option Table :=
  match files with
  | [] => none
  | _ :: _ =>
    let uc := unionCols (files.map fileCols)
    some ⟨uc,
      (files.map (fun f =>
        (fileRows f).map (fun r => uc.map (fun c => getCell (fileCols f) c r)))).flatten⟩

/-- The year of a row: the value of its `year` cell when that cell holds a
number, otherwise `none`. -/
def rowYear (cols : List String) (row : List Cell) : Option ℚ :=
  match getCell cols "year" row with
  | some (Val.num q) => some q
  | _ => none

/-- Test of app.py line 86: the row's `source_file` cell equals the
selected source. -/
def matchesSource (cols : List String) (s : String) (row : List Cell) : Bool :=
  getCell cols "source_file" row == some (Val.str s)

/-- The source-selector step of the filter section (app.py lines 85-86). -/
def sourceFilter (df : Table) (s : String) : Table :=
  if s = "All" then df
  else { df with rows := df.rows.filter (matchesSource df.cols s) }

/-- The year-range test of app.py line 91; a row whose year is missing
fails both NaN comparisons and is dropped. -/
def yearIn (cols : List String) (lo hi : ℤ) (row : List Cell) : Bool :=
  match rowYear cols row with
  | some q => decide ((lo : ℚ) ≤ q) && decide (q ≤ (hi : ℚ))
  | none => false

/-- The year-range step of the filter section (app.py lines 88-91): applied
only when a `year` column exists. -/
def yearFilterStep (t : Table) (lo hi : ℤ) : Table :=
  if "year" ∈ t.cols then { t with rows := t.rows.filter (yearIn t.cols lo hi) } else t

/-- The Filter Engine (app.py lines 84-91) as a function of the two
user-chosen parameters: source selector, then year range. -/
def filterView (df : Table) (s : String) (lo hi : ℤ) : Table :=
  yearFilterStep (sourceFilter df s) lo hi

/-- The present (non-missing, numeric) values of the `year` column. -/
def presentYears (t : Table) : List ℚ :=
  t.rows.filterMap (rowYear t.cols)

/-- Python `int()` truncation toward zero of a rational. -/
def pyInt (q : ℚ) : ℤ := q.num.tdiv q.den

/-- Minimum of a list of rationals, `none` on the empty list. -/
def minQ : List ℚ → Option ℚ
  | [] => none
  | x :: xs => some (xs.foldl min x)

/-- Maximum of a list of rationals, `none` on the empty list. -/
def maxQ : List ℚ → Option ℚ
  | [] => none
  | x :: xs => some (xs.foldl max x)

/-- The year-slider bounds of app.py line 89: `int(min)` and `int(max)` of
the `year` column of the current source-filtered view.  `none` models the
absence of the slider (no `year` column) as well as the exception
`int(nan)` raises when the column holds no value. -/
def sliderBounds (df : Table) (s : String) : Option (ℤ × ℤ) :=
  let t := sourceFilter df s
  if "year" ∈ t.cols then
    match minQ (presentYears t), maxQ (presentYears t) with
    | some a, some b => some (pyInt a, pyInt b)
    | _, _ => none
  else none

/-- The combined row predicate of the filter section when a `year` column
exists: the row matches the selector and its year lies in the range. -/
def keepRow (cols : List String) (s : String) (lo hi : ℤ) (row : List Cell) : Bool :=
  (s == "All" || matchesSource cols s row) && yearIn cols lo hi row

/-- The category column of the Bar Chart and Pie renderers (app.py lines
116 and 147): `entity` when present, otherwise the first column. -/
def categoryCol (t : Table) : String :=
  if "entity" ∈ t.cols then "entity" else t.cols.headD ""

/-- The pandas `groupby` keys of a column: its distinct values, missing
cells excluded (`groupby` drops NaN keys). -/
def groupKeys (t : Table) (c : String) : List Val :=
  (t.rows.filterMap (fun r => getCell t.cols c r)).dedup

/-- A numeric cell's value. -/
def toNum : Cell → Option ℚ
  | some (Val.num q) => some q
  | _ => none

/-- The metric values entering the mean of group `k`: rows whose category
cell holds `k` and whose metric cell holds a number (`mean` skips NaN). -/
def groupVals (t : Table) (cat met : String) (k : Val) : List ℚ :=
  t.rows.filterMap (fun r =>
    if getCell t.cols cat r = some k then toNum (getCell t.cols met r) else none)

/-- Per-group mean of the metric; `none` models the NaN mean of a group
with no present metric value. -/
def groupMean (t : Table) (cat met : String) (k : Val) : Option ℚ :=
  match groupVals t cat met k with
  | [] => none
  | l => some (l.sum / (l.length : ℚ))

/-- The comparison `sort_values` uses on the aggregated values: present
values descending when `hf` (Highest First) and ascending otherwise; a NaN
value sorts last either way. -/
def valLE (hf : Bool) : Option ℚ → Option ℚ → Bool
  | some a, some b => if hf then decide (b ≤ a) else decide (a ≤ b)
  | some _, none => true
  | none, none => true
  | none, some _ => false

/-- `sort_values` order lifted to (key, value) entries of the series. -/
def entryRel (hf : Bool) (p q : Val × Option ℚ) : Prop :=
  valLE hf p.2 q.2 = true

instance (hf : Bool) : DecidableRel (entryRel hf) :=
  fun p q => inferInstanceAs (Decidable (valLE hf p.2 q.2 = true))

/-- Descending order on the present-valued entries of the pie series. -/
def pieRel (p q : Val × ℚ) : Prop := q.2 ≤ p.2

instance : DecidableRel pieRel :=
  fun p q => inferInstanceAs (Decidable (q.2 ≤ p.2))

/-- Ascending order on rationals, the `groupby` key order of the trend. -/
def ascQ (a b : ℚ) : Prop := a ≤ b

instance : DecidableRel ascQ :=
  fun a b => inferInstanceAs (Decidable (a ≤ b))

/-- The Bar Chart aggregation of app.py line 120:
`groupby(category)[metric].mean().sort_values(ascending=not srt).head(top_n)`. -/
def barSeries (t : Table) (metric : String) (hf : Bool) (n : ℕ) : List (Val × Option ℚ) :=
  let cat := categoryCol t
  let series := (groupKeys t cat).map (fun k => (k, groupMean t cat metric k))
  (series.insertionSort (entryRel hf)).take n

/-- The number of distinct categories of the view: distinct present values
of its category column. -/
def distinctCats (t : Table) : ℕ :=
  (groupKeys t (categoryCol t)).length

/-- Monotonicity of the present values along a series: every pair of
present values in order respects the requested direction. -/
def monoOn (hf : Bool) (l : List (Val × Option ℚ)) : Prop :=
  ∀ (i j : Fin l.length), i < j → ∀ a b,
    (l.get i).2 = some a → (l.get j).2 = some b →
      (if hf then b ≤ a else a ≤ b)

/-- Character-list test: `pat` begins `hay`. -/
def listPre : List Char → List Char → Bool
  | [], _ => true
  | _ :: _, [] => false
  | a :: as, b :: bs => a == b && listPre as bs

/-- Character-list test: `pat` occurs inside `hay`. -/
def containsSub (hay pat : List Char) : Bool :=
  (List.range (hay.length + 1)).any (fun i => listPre pat (hay.drop i))

/-- The column test of app.py line 142: the label contains `gap` or
`percent`. -/
def gapLike (c : String) : Bool :=
  containsSub c.data "gap".data || containsSub c.data "percent".data

/-- A renderer's outcome: an inline warning, or one chart artifact. -/
inductive Render (α : Type) where
  | warning : Render α
  | chart : α → Render α
deriving DecidableEq, Repr

/-- Number of chart artifacts a render outcome produces. -/
def Render.count {α : Type} : Render α → ℕ
  | .warning => 0
  | .chart _ => 1

/-- The Treatment Gap Pie aggregation of app.py line 148:
`groupby(category)[gap_col].mean().nlargest(8)` — `nlargest` drops NaN
means, sorts descending, and keeps at most 8. -/
def pieSeries (t : Table) (g : String) : List (Val × ℚ) :=
  let cat := categoryCol t
  let series := (groupKeys t cat).filterMap
    (fun k => (groupMean t cat g k).map (fun q => (k, q)))
  (series.insertionSort pieRel).take 8

/-- The Treatment Gap Pie branch (app.py lines 141-152): find the first
gap/percent-like column; warn when there is none, otherwise chart the
aggregated series. -/
def pieRender (t : Table) : Render (List (Val × ℚ)) :=
  match t.cols.find? gapLike with
  | none => Render.warning
  | some g => Render.chart (pieSeries t g)

/-- Length of the pie's aggregated series; 0 when only a warning shows. -/
def pieLen (t : Table) : ℕ :=
  match pieRender t with
  | Render.warning => 0
  | Render.chart l => l.length

/-- The Trend Over Time aggregation of app.py line 133: per-year mean of
the metric, year keys ascending as `groupby` sorts them. -/
def trendSeries (t : Table) (metric : String) : List (ℚ × Option ℚ) :=
  (((presentYears t).dedup).insertionSort ascQ).map
    (fun y => (y, groupMean t "year" metric (Val.num y)))

/-- The Trend Over Time branch (app.py lines 127-139): warn when the view
has no `year` column, otherwise chart the per-year means. -/
def trendRender (t : Table) (metric : String) : Render (List (ℚ × Option ℚ)) :=
  if "year" ∈ t.cols then Render.chart (trendSeries t metric) else Render.warning

/-- Adjacent double underscore inside a character list. -/
def dblUnd : List Char → Bool
  | [] => false
  | [_] => false
  | a :: b :: r => (a == '_' && b == '_') || dblUnd (b :: r)

/-- Whether a character list starts with an underscore. -/
def startsUnd : List Char → Bool
  | c :: _ => c == '_'
  | [] => false

/-- Character of the normalized-label alphabet: `[a-z0-9_]`. -/
def goodChar (c : Char) : Bool :=
  (97 ≤ c.toNat && c.toNat ≤ 122) || (48 ≤ c.toNat && c.toNat ≤ 57) || c.toNat == 95

/-- The view with the rows whose category cell is missing removed. -/
def dropMissingCat (t : Table) : Table :=
  { t with rows := t.rows.filter (fun r => (getCell t.cols (categoryCol t) r).isSome) }

/-- The view with the rows whose metric cell is not a present number
removed. -/
def dropMissingMetric (t : Table) (met : String) : Table :=
  { t with rows := t.rows.filter (fun r => (toNum (getCell t.cols met r)).isSome) }

/-- Concrete frame: a `year` column with one present and one missing value
(as `pd.concat` produces when one input file lacks the column). -/
def dfMissingYear : Table :=
  ⟨["year", "source_file"],
   [[some (Val.num 2000), some (Val.str "a.csv")],
    [none, some (Val.str "a.csv")]]⟩

/-- Concrete input file whose single header label already holds a double
underscore. -/
def fileDoubleUnd : CsvFile :=
  ⟨"x.csv", ["a__b"], [[some (Val.num 1)]]⟩

/-- Concrete input files of the spec's scenario shape: `a.csv` with three
rows and `b.csv` with two, sharing the header `Entity, Year, Gap (%)`. -/
def fileA : CsvFile :=
  ⟨"a.csv", ["Entity", "Year", "Gap (%)"],
   [[some (Val.str "X"), some (Val.num 2000), some (Val.num 30)],
    [some (Val.str "X"), some (Val.num 2005), some (Val.num 20)],
    [some (Val.str "Y"), some (Val.num 2010), some (Val.num 50)]]⟩

/-- Second concrete input file of the scenario. -/
def fileB : CsvFile :=
  ⟨"b.csv", ["Entity", "Year", "Gap (%)"],
   [[some (Val.str "Y"), some (Val.num 1990), some (Val.num 10)],
    [some (Val.str "Z"), some (Val.num 2020), some (Val.num 40)]]⟩

/-- The unified table the loader builds from the two scenario files. -/
def dfScenario : Table :=
  ⟨["entity", "year", "gap_", "source_file"],
   [[some (Val.str "X"), some (Val.num 2000), some (Val.num 30), some (Val.str "a.csv")],
    [some (Val.str "X"), some (Val.num 2005), some (Val.num 20), some (Val.str "a.csv")],
    [some (Val.str "Y"), some (Val.num 2010), some (Val.num 50), some (Val.str "a.csv")],
    [some (Val.str "Y"), some (Val.num 1990), some (Val.num 10), some (Val.str "b.csv")],
    [some (Val.str "Z"), some (Val.num 2020), some (Val.num 40), some (Val.str "b.csv")]]⟩

/-- Concrete frame without a `year` column. -/
def dfNoYear : Table :=
  ⟨["entity", "score", "source_file"],
   [[some (Val.str "X"), some (Val.num 3), some (Val.str "a.csv")],
    [some (Val.str "Y"), some (Val.num 7), some (Val.str "a.csv")]]⟩

theorem sourceFilter_cols (df : Table) (s : String) :
    (sourceFilter df s).cols = df.cols := by
  rw [sourceFilter]; split <;> rfl

theorem yearFilterStep_cols (t : Table) (lo hi : ℤ) :
    (yearFilterStep t lo hi).cols = t.cols := by
  rw [yearFilterStep]; split <;> rfl

theorem sourceFilter_rows_length (df : Table) (s : String) :
    (sourceFilter df s).rows.length ≤ df.rows.length := by
  rw [sourceFilter]; split
  · exact le_refl _
  · exact List.length_filter_le _ _

theorem yearFilterStep_rows_length (t : Table) (lo hi : ℤ) :
    (yearFilterStep t lo hi).rows.length ≤ t.rows.length := by
  rw [yearFilterStep]; split
  · exact List.length_filter_le _ _
  · exact le_refl _

theorem mem_sourceFilter_rows {df : Table} {s : String} {r : List Cell}
    (h : r ∈ (sourceFilter df s).rows) :
    r ∈ df.rows ∧ (s ≠ "All" → matchesSource df.cols s r = true) := by
  rw [sourceFilter] at h
  by_cases hs : s = "All"
  · rw [if_pos hs] at h; exact ⟨h, fun hn => absurd hs hn⟩
  · rw [if_neg hs] at h
    exact ⟨(List.mem_filter.mp h).1, fun _ => (List.mem_filter.mp h).2⟩

theorem minQ_spec {l : List ℚ} {a : ℚ} (h : minQ l = some a) :
    a ∈ l ∧ ∀ q ∈ l, a ≤ q := by
  have foldl_le : ∀ (xs : List ℚ) (x q : ℚ), q ∈ x :: xs → xs.foldl min x ≤ q := by
    intro xs
    induction xs with
    | nil => intro x q hq; rw [List.mem_singleton] at hq; subst hq; exact le_refl _
    | cons y ys ih =>
      intro x q hq
      rcases List.mem_cons.mp hq with he | hq2
      · rw [he]
        exact le_trans (ih (min x y) (min x y) (List.mem_cons_self _ _)) (min_le_left _ _)
      · rcases List.mem_cons.mp hq2 with he | hq3
        · rw [he]
          exact le_trans (ih (min x y) (min x y) (List.mem_cons_self _ _)) (min_le_right _ _)
        · exact ih (min x y) q (List.mem_cons_of_mem _ hq3)
  have foldl_mem : ∀ (xs : List ℚ) (x : ℚ), xs.foldl min x ∈ x :: xs := by
    intro xs
    induction xs with
    | nil => intro x; exact List.mem_singleton.mpr rfl
    | cons y ys ih =>
      intro x
      rcases List.mem_cons.mp (ih (min x y)) with he | hm
      · rcases min_choice x y with h1 | h1
        · rw [List.foldl_cons, he, h1]; exact List.mem_cons_self _ _
        · rw [List.foldl_cons, he, h1]
          exact List.mem_cons_of_mem _ (List.mem_cons_self _ _)
      · exact List.mem_cons_of_mem _ (List.mem_cons_of_mem _ hm)
  cases l with
  | nil => simp [minQ] at h
  | cons x xs =>
    simp only [minQ, Option.some.injEq] at h
    subst h
    exact ⟨foldl_mem xs x, foldl_le xs x⟩

theorem maxQ_spec {l : List ℚ} {b : ℚ} (h : maxQ l = some b) :
    b ∈ l ∧ ∀ q ∈ l, q ≤ b := by
  have foldl_le : ∀ (xs : List ℚ) (x q : ℚ), q ∈ x :: xs → q ≤ xs.foldl max x := by
    intro xs
    induction xs with
    | nil => intro x q hq; rw [List.mem_singleton] at hq; subst hq; exact le_refl _
    | cons y ys ih =>
      intro x q hq
      rcases List.mem_cons.mp hq with he | hq2
      · rw [he]
        exact le_trans (le_max_left _ _) (ih (max x y) (max x y) (List.mem_cons_self _ _))
      · rcases List.mem_cons.mp hq2 with he | hq3
        · rw [he]
          exact le_trans (le_max_right _ _) (ih (max x y) (max x y) (List.mem_cons_self _ _))
        · exact ih (max x y) q (List.mem_cons_of_mem _ hq3)
  have foldl_mem : ∀ (xs : List ℚ) (x : ℚ), xs.foldl max x ∈ x :: xs := by
    intro xs
    induction xs with
    | nil => intro x; exact List.mem_singleton.mpr rfl
    | cons y ys ih =>
      intro x
      rcases List.mem_cons.mp (ih (max x y)) with he | hm
      · rcases max_choice x y with h1 | h1
        · rw [List.foldl_cons, he, h1]; exact List.mem_cons_self _ _
        · rw [List.foldl_cons, he, h1]
          exact List.mem_cons_of_mem _ (List.mem_cons_self _ _)
      · exact List.mem_cons_of_mem _ (List.mem_cons_of_mem _ hm)
  cases l with
  | nil => simp [maxQ] at h
  | cons x xs =>
    simp only [maxQ, Option.some.injEq] at h
    subst h
    exact ⟨foldl_mem xs x, foldl_le xs x⟩

theorem pyInt_cast_of_den_one {q : ℚ} (h : q.den = 1) : ((pyInt q : ℤ) : ℚ) = q := by
  have h1 : pyInt q = q.num := by rw [pyInt, h]; exact Int.tdiv_one q.num
  rw [h1]; exact (Rat.den_eq_one_iff q).mp h

/-- C7: with zero matching files the loader fails (`pd.concat` of an
empty collection raises), the Unified Table is not built, and this is the
only way the loader fails. -/
theorem empty_directory_fatal :
    load_data [] = none ∧ ∀ files : List CsvFile, (load_data files = none ↔ files = []) := by
  constructor
  · rfl
  · intro files
    cases files with
    | nil => simp [load_data]
    | cons f fs => simp [load_data]

/-- C7 witness: the loader fails exactly on the empty directory, and
succeeds on a concrete one-file directory. -/
theorem empty_directory_fatal_witness :
    load_data [] = none ∧ (load_data [fileA] = none ↔ [fileA] = []) :=
  ⟨empty_directory_fatal.1, empty_directory_fatal.2 [fileA]⟩

/-- C2: the Unified Table's row count equals the sum of the input files'
row counts. -/
theorem unified_row_count (files : List CsvFile) (t : Table)
    (h : load_data files = some t) :
    t.rows.length = (files.map (fun f => f.data.length)).sum := by
  cases files with
  | nil => simp [load_data] at h
  | cons f fs =>
    simp only [load_data] at h
    injection h with h2
    subst h2
    rw [List.length_flatten, List.map_map]
    congr 1
    apply List.map_congr_left
    intro g _
    simp [Function.comp, fileRows, List.length_map]

/-- C2 witness: the two scenario files, of three and two rows, build a
five-row Unified Table. -/
theorem unified_row_count_witness :
    load_data [fileA, fileB] = some dfScenario ∧
    dfScenario.rows.length = ([fileA, fileB].map (fun f => f.data.length)).sum :=
  ⟨by decide, unified_row_count [fileA, fileB] dfScenario (by decide)⟩

/-- C6: the Trend Over Time branch renders a warning and zero chart
artifacts when the view has no `year` column, and otherwise charts the
per-year means of the chosen metric. -/
theorem trend_missing_year (t : Table) (m : String) :
    ("year" ∉ t.cols → trendRender t m = Render.warning ∧ (trendRender t m).count = 0) ∧
    ("year" ∈ t.cols → trendRender t m = Render.chart (trendSeries t m)) := by
  constructor
  · intro h; rw [trendRender, if_neg h]; exact ⟨rfl, rfl⟩
  · intro h; rw [trendRender, if_pos h]

/-- C6 witness: on the concrete frame without a `year` column the Trend
branch warns and produces no chart artifact. -/
theorem trend_missing_year_witness :
    ("year" ∉ dfNoYear.cols) ∧
    (trendRender dfNoYear "score" = Render.warning ∧
      (trendRender dfNoYear "score").count = 0) :=
  ⟨by decide, (trend_missing_year dfNoYear "score").1 (by decide)⟩

theorem filterView_cols (df : Table) (s : String) (lo hi : ℤ) :
    (filterView df s lo hi).cols = df.cols := by
  rw [filterView, yearFilterStep_cols, sourceFilter_cols]

theorem mem_yearFilterStep_rows {t : Table} {lo hi : ℤ} {r : List Cell}
    (h : r ∈ (yearFilterStep t lo hi).rows) :
    r ∈ t.rows ∧ ("year" ∈ t.cols → yearIn t.cols lo hi r = true) := by
  rw [yearFilterStep] at h
  by_cases hy : "year" ∈ t.cols
  · rw [if_pos hy] at h
    exact ⟨(List.mem_filter.mp h).1, fun _ => (List.mem_filter.mp h).2⟩
  · rw [if_neg hy] at h
    exact ⟨h, fun hc => absurd hc hy⟩

/-- C1 counterexample: on a frame whose `year` column holds a missing
value (as concatenation produces when an input file lacks the column),
the full-span year range — the slider's own bounds — drops that row, so
with selector "All" and the full span the Filtered View is strictly
smaller than the Unified Table. -/
theorem full_span_counterexample :
    sliderBounds dfMissingYear "All" = some (2000, 2000) ∧
    (filterView dfMissingYear "All" 2000 2000).rows.length = 1 ∧
    dfMissingYear.rows.length = 2 :=
  ⟨by decide, by decide, by decide⟩

/-- C1 (amended): the Filtered View's row count never exceeds the Unified
Table's, and it equals it for selector "All" with the full-span year
range provided every row's year value is present and integral (or the
table has no `year` column at all). -/
theorem filtered_view_row_count (df : Table) (s : String) (lo hi : ℤ) :
    (filterView df s lo hi).rows.length ≤ df.rows.length ∧
    ("year" ∉ df.cols → filterView df "All" lo hi = df) ∧
    ((∀ r ∈ df.rows, (rowYear df.cols r).isSome = true) →
      (∀ q ∈ presentYears df, q.den = 1) →
      sliderBounds df "All" = some (lo, hi) →
      (filterView df "All" lo hi).rows.length = df.rows.length) := by
  have hAll : sourceFilter df "All" = df := by rw [sourceFilter, if_pos rfl]
  refine ⟨?_, ?_, ?_⟩
  · exact le_trans (yearFilterStep_rows_length _ lo hi) (sourceFilter_rows_length df s)
  · intro hy
    rw [filterView, hAll, yearFilterStep, if_neg hy]
  · intro hpres hden hb
    simp only [sliderBounds, hAll] at hb
    by_cases hy : "year" ∈ df.cols
    · rw [if_pos hy] at hb
      cases hmin : minQ (presentYears df) with
      | none => rw [hmin] at hb; simp at hb
      | some a =>
        cases hmax : maxQ (presentYears df) with
        | none => rw [hmin, hmax] at hb; simp at hb
        | some b =>
          rw [hmin, hmax] at hb
          simp only [Option.some.injEq, Prod.mk.injEq] at hb
          obtain ⟨hl, hh⟩ := hb
          subst hl
          subst hh
          obtain ⟨hamem, hale⟩ := minQ_spec hmin
          obtain ⟨hbmem, hble⟩ := maxQ_spec hmax
          have haq : ((pyInt a : ℤ) : ℚ) = a := pyInt_cast_of_den_one (hden a hamem)
          have hbq : ((pyInt b : ℤ) : ℚ) = b := pyInt_cast_of_den_one (hden b hbmem)
          rw [filterView, hAll, yearFilterStep, if_pos hy]
          show (df.rows.filter (yearIn df.cols (pyInt a) (pyInt b))).length = df.rows.length
          have hfil : df.rows.filter (yearIn df.cols (pyInt a) (pyInt b)) = df.rows := by
            apply List.filter_eq_self.mpr
            intro r hr
            obtain ⟨q, hq⟩ := Option.isSome_iff_exists.mp (hpres r hr)
            have hqmem : q ∈ presentYears df := List.mem_filterMap.mpr ⟨r, hr, hq⟩
            simp only [yearIn, hq]
            rw [Bool.and_eq_true, decide_eq_true_eq, decide_eq_true_eq]
            constructor
            · rw [haq]; exact hale q hqmem
            · rw [hbq]; exact hble q hqmem
          rw [hfil]
    · rw [filterView, hAll, yearFilterStep, if_neg hy]

/-- C1 witness: on the concrete five-row scenario table, whose years are
all present integers, the "All" selector with the full-span range keeps
every row, and every selection is no larger than the table. -/
theorem filtered_view_row_count_witness :
    ((∀ r ∈ dfScenario.rows, (rowYear dfScenario.cols r).isSome = true) ∧
      (∀ q ∈ presentYears dfScenario, q.den = 1) ∧
      sliderBounds dfScenario "All" = some (1990, 2020)) ∧
    (filterView dfScenario "All" 1990 2020).rows.length = dfScenario.rows.length :=
  ⟨⟨by decide, by decide, by decide⟩,
    (filtered_view_row_count dfScenario "All" 1990 2020).2.2
      (by decide) (by decide) (by decide)⟩

/-- C9: the Filter Engine is idempotent — running the source and year
filters a second time with identical parameters changes nothing. -/
theorem filter_engine_idempotent (df : Table) (s : String) (lo hi : ℤ) :
    filterView (filterView df s lo hi) s lo hi = filterView df s lo hi := by
  have hcols : (filterView df s lo hi).cols = df.cols := filterView_cols df s lo hi
  have hsrc : sourceFilter (filterView df s lo hi) s = filterView df s lo hi := by
    by_cases hs : s = "All"
    · rw [sourceFilter, if_pos hs]
    · rw [sourceFilter, if_neg hs, hcols]
      have hfil : (filterView df s lo hi).rows.filter (matchesSource df.cols s) =
          (filterView df s lo hi).rows := by
        apply List.filter_eq_self.mpr
        intro r hr
        rw [filterView] at hr
        have hr2 : r ∈ (sourceFilter df s).rows := (mem_yearFilterStep_rows hr).1
        have := (mem_sourceFilter_rows hr2).2 hs
        exact this
      rw [hfil, ← hcols]
  rw [filterView, hsrc]
  by_cases hy : "year" ∈ df.cols
  · have hy2 : "year" ∈ (filterView df s lo hi).cols := by rw [hcols]; exact hy
    rw [yearFilterStep, if_pos hy2, hcols]
    have hfil : (filterView df s lo hi).rows.filter (yearIn df.cols lo hi) =
        (filterView df s lo hi).rows := by
      apply List.filter_eq_self.mpr
      intro r hr
      rw [filterView] at hr
      have hy3 : "year" ∈ (sourceFilter df s).cols := by
        rw [sourceFilter_cols]; exact hy
      have := (mem_yearFilterStep_rows hr).2 hy3
      rw [sourceFilter_cols] at this
      exact this
    rw [hfil, ← hcols]
  · have hy2 : "year" ∉ (filterView df s lo hi).cols := by rw [hcols]; exact hy
    rw [yearFilterStep, if_neg hy2]

theorem charOfNat_toNat_mid (n : ℕ) (h1 : 97 ≤ n) (h2 : n ≤ 122) :
    (Char.ofNat n).toNat = n := by
  interval_cases n <;> decide

theorem word_lower_good (c : Char) (hw : isWordChar (lowChar c) = true) :
    goodChar (lowChar c) = true := by
  by_cases hup : 65 ≤ c.toNat ∧ c.toNat ≤ 90
  · rw [lowChar, if_pos hup] at hw ⊢
    have ht : (Char.ofNat (c.toNat + 32)).toNat = c.toNat + 32 :=
      charOfNat_toNat_mid _ (by omega) (by omega)
    simp only [goodChar, ht, Bool.or_eq_true, Bool.and_eq_true, decide_eq_true_eq,
      beq_iff_eq]
    omega
  · rw [lowChar, if_neg hup] at hw ⊢
    simp only [isWordChar, Bool.or_eq_true, Bool.and_eq_true, decide_eq_true_eq,
      beq_iff_eq] at hw
    simp only [goodChar, Bool.or_eq_true, Bool.and_eq_true, decide_eq_true_eq,
      beq_iff_eq]
    omega

theorem collapse_chars (b : Bool) (l : List Char) (c : Char)
    (hc : c ∈ collapseRuns b l) : c = '_' ∨ (c ∈ l ∧ isWordChar c = true) := by
  induction l generalizing b with
  | nil => simp [collapseRuns] at hc
  | cons x xs ih =>
    simp only [collapseRuns] at hc
    by_cases hw : isWordChar x = true
    · rw [if_pos hw] at hc
      rcases List.mem_cons.mp hc with he | h2
      · right; rw [he]; exact ⟨List.mem_cons_self _ _, hw⟩
      · rcases ih false h2 with h3 | ⟨h4, h5⟩
        · exact Or.inl h3
        · exact Or.inr ⟨List.mem_cons_of_mem _ h4, h5⟩
    · rw [if_neg hw] at hc
      by_cases hb : b = true
      · rw [if_pos hb] at hc
        rcases ih true hc with h3 | ⟨h4, h5⟩
        · exact Or.inl h3
        · exact Or.inr ⟨List.mem_cons_of_mem _ h4, h5⟩
      · rw [if_neg hb] at hc
        rcases List.mem_cons.mp hc with he | h2
        · exact Or.inl he
        · rcases ih true h2 with h3 | ⟨h4, h5⟩
          · exact Or.inl h3
          · exact Or.inr ⟨List.mem_cons_of_mem _ h4, h5⟩

theorem norm_chars_good (s : String) : (normalizeName s).data.all goodChar = true := by
  rw [List.all_eq_true]
  intro c hc
  rcases collapse_chars false (s.data.map lowChar) c hc with he | ⟨hmem, hword⟩
  · rw [he]; decide
  · rcases List.mem_map.mp hmem with ⟨c0, _, he2⟩
    have hword2 : isWordChar (lowChar c0) = true := by rw [he2]; exact hword
    rw [← he2]
    exact word_lower_good c0 hword2

theorem mem_inner_fold (cs : List String) :
    ∀ (acc : List String) (c : String),
      c ∈ cs.foldl (fun a x => if x ∈ a then a else a ++ [x]) acc →
        c ∈ acc ∨ c ∈ cs := by
  induction cs with
  | nil => intro acc c h; exact Or.inl h
  | cons x xs ih =>
    intro acc c h
    rw [List.foldl_cons] at h
    rcases ih _ c h with h2 | h2
    · by_cases hx : x ∈ acc
      · rw [if_pos hx] at h2; exact Or.inl h2
      · rw [if_neg hx] at h2
        rcases List.mem_append.mp h2 with h3 | h3
        · exact Or.inl h3
        · rw [List.mem_singleton] at h3; rw [h3]
          exact Or.inr (List.mem_cons_self _ _)
    · exact Or.inr (List.mem_cons_of_mem _ h2)

theorem mem_unionCols {ls : List (List String)} {c : String}
    (h : c ∈ unionCols ls) : ∃ cs ∈ ls, c ∈ cs := by
  have hgen : ∀ (ms : List (List String)) (acc : List String) (d : String),
      d ∈ ms.foldl (fun acc cs => cs.foldl (fun a x => if x ∈ a then a else a ++ [x]) acc) acc →
        d ∈ acc ∨ ∃ cs ∈ ms, d ∈ cs := by
    intro ms
    induction ms with
    | nil => intro acc d hd; exact Or.inl hd
    | cons l1 rest ih =>
      intro acc d hd
      rw [List.foldl_cons] at hd
      rcases ih _ d hd with h2 | ⟨cs, hcs, hc2⟩
      · rcases mem_inner_fold l1 acc d h2 with h3 | h3
        · exact Or.inl h3
        · exact Or.inr ⟨l1, List.mem_cons_self _ _, h3⟩
      · exact Or.inr ⟨cs, List.mem_cons_of_mem _ hcs, hc2⟩
  rcases hgen ls [] c h with h2 | h2
  · simp at h2
  · exact h2

theorem dblUnd_expand (a : Char) (l : List Char) :
    dblUnd (a :: l) = ((a == '_' && startsUnd l) || dblUnd l) := by
  cases l with
  | nil => simp [dblUnd, startsUnd]
  | cons b r => simp [dblUnd, startsUnd]

theorem lowChar_ne_underscore (c : Char) (h : c ≠ '_') : lowChar c ≠ '_' := by
  rw [lowChar]
  split
  · intro he
    have ht : (Char.ofNat (c.toNat + 32)).toNat = c.toNat + 32 :=
      charOfNat_toNat_mid _ (by omega) (by omega)
    have h95 : (Char.ofNat (c.toNat + 32)).toNat = 95 := by rw [he]; rfl
    omega
  · exact h

theorem map_lower_no_underscore (s : List Char) (h : '_' ∉ s) :
    '_' ∉ s.map lowChar := by
  intro hmem
  rcases List.mem_map.mp hmem with ⟨c0, hc0, he⟩
  have hne : c0 ≠ '_' := by intro h2; apply h; rw [← h2]; exact hc0
  exact lowChar_ne_underscore c0 hne he

theorem collapse_nodbl (l : List Char) (hl : '_' ∉ l) :
    (∀ b, dblUnd (collapseRuns b l) = false) ∧
      startsUnd (collapseRuns true l) = false := by
  induction l with
  | nil => exact ⟨fun _ => rfl, rfl⟩
  | cons x xs ih =>
    have hx : x ≠ '_' := by
      intro he; apply hl; rw [he]; exact List.mem_cons_self _ _
    have hxb : (x == '_') = false := beq_eq_false_iff_ne.mpr hx
    have hxs : '_' ∉ xs := fun h2 => hl (List.mem_cons_of_mem _ h2)
    obtain ⟨ih1, ih2⟩ := ih hxs
    constructor
    · intro b
      by_cases hw : isWordChar x = true
      · simp only [collapseRuns, if_pos hw]
        rw [dblUnd_expand, ih1 false, Bool.or_false, hxb, Bool.false_and]
      · simp only [collapseRuns, if_neg hw]
        by_cases hb : b = true
        · rw [if_pos hb]; exact ih1 true
        · rw [if_neg hb]
          rw [dblUnd_expand, ih1 true, Bool.or_false, ih2, Bool.and_false]
    · by_cases hw : isWordChar x = true
      · simp only [collapseRuns, if_pos hw, startsUnd]
        exact hxb
      · simp only [collapseRuns, if_neg hw, if_pos rfl]
        exact ih2

/-- C3 counterexample: an input header that already holds two consecutive
underscores survives normalization unchanged — underscores are word
characters and are not collapsed — so the Unified Table contains the
column `a__b`. -/
theorem double_underscore_counterexample :
    (load_data [fileDoubleUnd]).map Table.cols = some ["a__b", "source_file"] ∧
    dblUnd "a__b".data = true :=
  ⟨by decide, by decide⟩

/-- C3 (amended): every column label of the Unified Table is made of
`[a-z0-9_]` characters only (in particular it is lowercase), and a
normalized name holds no two consecutive underscores provided the
original name held no underscore of its own. -/
theorem normalized_column_charset :
    (∀ (files : List CsvFile) (t : Table), load_data files = some t →
      ∀ c ∈ t.cols, c.data.all goodChar = true) ∧
    (∀ s : String, '_' ∉ s.data → dblUnd (normalizeName s).data = false) := by
  constructor
  · intro files t h c hc
    cases files with
    | nil => simp [load_data] at h
    | cons f fs =>
      simp only [load_data] at h
      injection h with h2
      subst h2
      rcases mem_unionCols hc with ⟨cs, hcs, hccs⟩
      rcases List.mem_map.mp hcs with ⟨g, _, hg⟩
      rw [← hg, fileCols] at hccs
      rcases List.mem_map.mp hccs with ⟨s0, _, hs0⟩
      rw [← hs0]
      exact norm_chars_good s0
  · intro s hs
    exact (collapse_nodbl (s.data.map lowChar) (map_lower_no_underscore s.data hs)).1 false

/-- C3 witness: the loader's concrete `gap_` label is in the normalized
alphabet, and normalizing the underscore-free label `a b` leaves no
double underscore. -/
theorem normalized_column_charset_witness :
    (load_data [fileA, fileB] = some dfScenario ∧ "gap_" ∈ dfScenario.cols ∧
      "gap_".data.all goodChar = true) ∧
    ('_' ∉ "a b".data ∧ dblUnd (normalizeName "a b").data = false) :=
  ⟨⟨by decide, by decide,
      normalized_column_charset.1 [fileA, fileB] dfScenario (by decide) "gap_" (by decide)⟩,
    ⟨by decide, normalized_column_charset.2 "a b" (by decide)⟩⟩

theorem find_first_split {α : Type} (p : α → Bool) :
    ∀ (l : List α) (a : α), l.find? p = some a →
      p a = true ∧ ∃ pre post, l = pre ++ a :: post ∧ ∀ x ∈ pre, p x = false := by
  intro l
  induction l with
  | nil => intro a h; simp [List.find?] at h
  | cons x xs ih =>
    intro a h
    cases hp : p x with
    | true =>
      rw [List.find?_cons_of_pos _ hp] at h
      injection h with h2
      subst h2
      exact ⟨hp, [], xs, rfl, by simp⟩
    | false =>
      rw [List.find?_cons_of_neg _ (by rw [hp]; exact Bool.false_ne_true)] at h
      rcases ih a h with ⟨hpa, pre, post, heq, hpre⟩
      refine ⟨hpa, x :: pre, post, by rw [heq]; rfl, ?_⟩
      intro y hy
      rcases List.mem_cons.mp hy with he | h2
      · rw [he]; exact hp
      · exact hpre y h2

/-- C5: the Treatment Gap Pie series never exceeds 8 entries; with no
gap/percent-like column the branch only warns, producing a series of
length 0; and when such columns exist the first one in column order is
the chosen gap metric. -/
theorem pie_series_bounds (t : Table) :
    pieLen t ≤ 8 ∧
    (t.cols.find? gapLike = none → pieRender t = Render.warning ∧ pieLen t = 0) ∧
    (∀ c, t.cols.find? gapLike = some c → gapLike c = true ∧
      ∃ pre post, t.cols = pre ++ c :: post ∧ ∀ d ∈ pre, gapLike d = false) := by
  refine ⟨?_, ?_, ?_⟩
  · cases hg : t.cols.find? gapLike with
    | none => simp [pieLen, pieRender, hg]
    | some g =>
      simp only [pieLen, pieRender, hg]
      exact List.length_take_le 8 _
  · intro hn
    constructor
    · simp [pieRender, hn]
    · simp [pieLen, pieRender, hn]
  · intro c hc
    exact find_first_split gapLike t.cols c hc

/-- C5 witness: the scenario table's first matching column is `gap_` and
its pie series has at most 8 slices; the no-year frame has no matching
column, so its pie branch warns with an empty series. -/
theorem pie_series_bounds_witness :
    pieLen dfScenario ≤ 8 ∧
    (dfNoYear.cols.find? gapLike = none) ∧
    (pieRender dfNoYear = Render.warning ∧ pieLen dfNoYear = 0) ∧
    (dfScenario.cols.find? gapLike = some "gap_") ∧
    (gapLike "gap_" = true ∧ ∃ pre post, dfScenario.cols = pre ++ "gap_" :: post ∧
      ∀ d ∈ pre, gapLike d = false) :=
  ⟨(pie_series_bounds dfScenario).1, by decide,
    (pie_series_bounds dfNoYear).2.1 (by decide), by decide,
    (pie_series_bounds dfScenario).2.2 "gap_" (by decide)⟩

theorem valLE_total (hf : Bool) (x y : Option ℚ) :
    valLE hf x y = true ∨ valLE hf y x = true := by
  cases x with
  | none =>
    cases y with
    | none => exact Or.inl rfl
    | some b => exact Or.inr rfl
  | some a =>
    cases y with
    | none => exact Or.inl rfl
    | some b =>
      rcases le_total a b with h | h
      · cases hf
        · exact Or.inl (by simp [valLE, h])
        · exact Or.inr (by simp [valLE, h])
      · cases hf
        · exact Or.inr (by simp [valLE, h])
        · exact Or.inl (by simp [valLE, h])

theorem valLE_trans (hf : Bool) {x y z : Option ℚ}
    (h1 : valLE hf x y = true) (h2 : valLE hf y z = true) :
    valLE hf x z = true := by
  cases hf <;> cases x <;> cases y <;> cases z <;>
    simp_all [valLE] <;> exact le_trans (by assumption) (by assumption)

/-- C4: for any top-N request, the Bar Chart series has length
min(N, number of distinct categories), and its present values are
non-increasing under "Highest First" and non-decreasing otherwise (NaN
means sort last either way). -/
theorem bar_series_shape (t : Table) (metric : String) (hf : Bool) (n : ℕ)
    (_h3 : 3 ≤ n) (_h20 : n ≤ 20) :
    (barSeries t metric hf n).length = min n (distinctCats t) ∧
    monoOn hf (barSeries t metric hf n) := by
  have hser : barSeries t metric hf n =
      (((groupKeys t (categoryCol t)).map
        (fun k => (k, groupMean t (categoryCol t) metric k))).insertionSort
          (entryRel hf)).take n := rfl
  constructor
  · rw [hser, distinctCats, List.length_take, List.length_insertionSort, List.length_map]
  · have htot : IsTotal (Val × Option ℚ) (entryRel hf) :=
      ⟨fun p q => valLE_total hf p.2 q.2⟩
    have htr : IsTrans (Val × Option ℚ) (entryRel hf) :=
      ⟨fun _ _ _ h1 h2 => valLE_trans hf h1 h2⟩
    have hsorted : List.Sorted (entryRel hf)
        (((groupKeys t (categoryCol t)).map
          (fun k => (k, groupMean t (categoryCol t) metric k))).insertionSort
            (entryRel hf)) :=
      @List.sorted_insertionSort _ (entryRel hf) _ htot htr _
    have hpair : List.Pairwise (entryRel hf) (barSeries t metric hf n) := by
      rw [hser]
      exact List.Pairwise.sublist (List.take_sublist n _) hsorted
    intro i j hij a b ha hb
    have hrel : valLE hf ((barSeries t metric hf n).get i).2
        ((barSeries t metric hf n).get j).2 = true :=
      List.pairwise_iff_get.mp hpair i j hij
    rw [ha, hb] at hrel
    cases hf <;> simpa [valLE] using hrel

/-- C4 witness: on the scenario table with N = 3 and "Highest First" the
series has min(3, 3) entries and its present values are
non-increasing. -/
theorem bar_series_shape_witness :
    ((3 : ℕ) ≤ 3 ∧ (3 : ℕ) ≤ 20) ∧
    ((barSeries dfScenario "gap_" true 3).length = min 3 (distinctCats dfScenario) ∧
      monoOn true (barSeries dfScenario "gap_" true 3)) :=
  ⟨⟨by decide, by decide⟩,
    bar_series_shape dfScenario "gap_" true 3 (by decide) (by decide)⟩

/-- C8: when a `year` column exists, the Filtered View keeps exactly the
rows that match the selector and whose year lies in the chosen inclusive
range; the years feeding the slider are exactly those of the rows matching
the current selector; and (for present, integral year values) the slider
bounds are the minimum and maximum year of those selected rows alone. -/
theorem slider_bounds_selected (df : Table) (s : String) (hy : "year" ∈ df.cols) :
    (∀ lo hi, (filterView df s lo hi).rows = df.rows.filter (keepRow df.cols s lo hi)) ∧
    presentYears (sourceFilter df s) =
      (df.rows.filter (fun r => s == "All" || matchesSource df.cols s r)).filterMap
        (rowYear df.cols) ∧
    ((∀ q ∈ presentYears (sourceFilter df s), q.den = 1) →
      presentYears (sourceFilter df s) ≠ [] →
      ∃ lo hi, sliderBounds df s = some (lo, hi) ∧
        (lo : ℚ) ∈ presentYears (sourceFilter df s) ∧
        (∀ q ∈ presentYears (sourceFilter df s), (lo : ℚ) ≤ q) ∧
        (hi : ℚ) ∈ presentYears (sourceFilter df s) ∧
        (∀ q ∈ presentYears (sourceFilter df s), q ≤ (hi : ℚ))) := by
  have hstep : ∀ (u : Table) (lo hi : ℤ), u.cols = df.cols →
      (yearFilterStep u lo hi).rows = u.rows.filter (yearIn df.cols lo hi) := by
    intro u lo hi hu
    rw [yearFilterStep, hu, if_pos hy]
  refine ⟨?_, ?_, ?_⟩
  · intro lo hi
    rw [filterView, hstep (sourceFilter df s) lo hi (sourceFilter_cols df s)]
    by_cases hs : s = "All"
    · subst hs
      rw [sourceFilter, if_pos rfl]
      apply List.filter_congr
      intro r _
      rw [keepRow]
      simp
    · rw [sourceFilter, if_neg hs]
      show (df.rows.filter (matchesSource df.cols s)).filter (yearIn df.cols lo hi) = _
      rw [List.filter_filter]
      apply List.filter_congr
      intro r _
      rw [keepRow, beq_eq_false_iff_ne.mpr hs, Bool.false_or]
      exact Bool.and_comm _ _
  · by_cases hs : s = "All"
    · subst hs
      have hfil : df.rows.filter
          (fun r => ("All" == "All") || matchesSource df.cols "All" r) = df.rows :=
        List.filter_eq_self.mpr (fun a _ => by simp)
      rw [sourceFilter, if_pos rfl, hfil, presentYears]
    · rw [sourceFilter, if_neg hs, presentYears]
      show (df.rows.filter (matchesSource df.cols s)).filterMap (rowYear df.cols) = _
      congr 1
      apply List.filter_congr
      intro r _
      rw [beq_eq_false_iff_ne.mpr hs, Bool.false_or]
  · intro hden hne
    have hyc : "year" ∈ (sourceFilter df s).cols := by
      rw [sourceFilter_cols]; exact hy
    cases hmin : minQ (presentYears (sourceFilter df s)) with
    | none =>
      exfalso
      cases hp : presentYears (sourceFilter df s) with
      | nil => exact hne hp
      | cons x xs => rw [hp] at hmin; simp [minQ] at hmin
    | some a =>
      cases hmax : maxQ (presentYears (sourceFilter df s)) with
      | none =>
        exfalso
        cases hp : presentYears (sourceFilter df s) with
        | nil => exact hne hp
        | cons x xs => rw [hp] at hmax; simp [maxQ] at hmax
      | some b =>
        obtain ⟨hamem, hale⟩ := minQ_spec hmin
        obtain ⟨hbmem, hble⟩ := maxQ_spec hmax
        refine ⟨pyInt a, pyInt b, ?_, ?_, ?_, ?_, ?_⟩
        · simp only [sliderBounds, hyc, if_true, hmin, hmax]
        · rw [pyInt_cast_of_den_one (hden a hamem)]; exact hamem
        · intro q hq; rw [pyInt_cast_of_den_one (hden a hamem)]; exact hale q hq
        · rw [pyInt_cast_of_den_one (hden b hbmem)]; exact hbmem
        · intro q hq; rw [pyInt_cast_of_den_one (hden b hbmem)]; exact hble q hq

/-- C8 witness: with selector `a.csv` on the scenario table the slider
bounds come from the three `a.csv` rows only (1990 and 2020 of `b.csv`
are ignored). -/
theorem slider_bounds_selected_witness :
    ("year" ∈ dfScenario.cols ∧
      (∀ q ∈ presentYears (sourceFilter dfScenario "a.csv"), q.den = 1) ∧
      presentYears (sourceFilter dfScenario "a.csv") ≠ []) ∧
    (∃ lo hi, sliderBounds dfScenario "a.csv" = some (lo, hi) ∧
      (lo : ℚ) ∈ presentYears (sourceFilter dfScenario "a.csv") ∧
      (∀ q ∈ presentYears (sourceFilter dfScenario "a.csv"), (lo : ℚ) ≤ q) ∧
      (hi : ℚ) ∈ presentYears (sourceFilter dfScenario "a.csv") ∧
      (∀ q ∈ presentYears (sourceFilter dfScenario "a.csv"), q ≤ (hi : ℚ))) :=
  ⟨⟨by decide, by decide, by decide⟩,
    (slider_bounds_selected dfScenario "a.csv" (by decide)).2.2 (by decide) (by decide)⟩

theorem filter_filterMap_of_none {α β : Type} (p : α → Bool) (g : α → Option β)
    (h : ∀ x, p x = false → g x = none) :
    ∀ l : List α, (l.filter p).filterMap g = l.filterMap g := by
  intro l
  induction l with
  | nil => rfl
  | cons x xs ih =>
    cases hp : p x with
    | false => simp [List.filter_cons, hp, List.filterMap_cons, h x hp, ih]
    | true =>
      cases hg : g x with
      | none => simp [List.filter_cons, hp, List.filterMap_cons, hg, ih]
      | some b => simp [List.filter_cons, hp, List.filterMap_cons, hg, ih]

/-- C10: rows with a missing category cell form no group — removing them
changes neither the Bar Chart series, nor the Pie series, nor the count
of distinct categories — and each group's mean is computed over only the
present metric values, so removing rows with a missing metric cell leaves
every group mean unchanged. -/
theorem groupby_missing_policy (t : Table) (metric g : String) (hf : Bool) (n : ℕ) :
    barSeries (dropMissingCat t) metric hf n = barSeries t metric hf n ∧
    pieSeries (dropMissingCat t) g = pieSeries t g ∧
    distinctCats (dropMissingCat t) = distinctCats t ∧
    (∀ k : Val, groupMean (dropMissingMetric t metric) (categoryCol t) metric k =
      groupMean t (categoryCol t) metric k) := by
  have hc2 : categoryCol (dropMissingCat t) = categoryCol t := rfl
  have hkeys : groupKeys (dropMissingCat t) (categoryCol t) =
      groupKeys t (categoryCol t) := by
    rw [groupKeys, groupKeys]
    congr 1
    show ((t.rows.filter fun r => (getCell t.cols (categoryCol t) r).isSome).filterMap
        fun r => getCell t.cols (categoryCol t) r) = _
    apply filter_filterMap_of_none
    intro x hx
    cases hgc : getCell t.cols (categoryCol t) x with
    | none => rfl
    | some v => rw [hgc] at hx; simp at hx
  have hvals : ∀ (m : String) (k : Val),
      groupVals (dropMissingCat t) (categoryCol t) m k =
        groupVals t (categoryCol t) m k := by
    intro m k
    rw [groupVals, groupVals]
    show ((t.rows.filter fun r => (getCell t.cols (categoryCol t) r).isSome).filterMap
        fun r => if getCell t.cols (categoryCol t) r = some k
          then toNum (getCell t.cols m r) else none) = _
    apply filter_filterMap_of_none
    intro x hx
    have hne : ¬(getCell t.cols (categoryCol t) x = some k) := by
      intro heq; rw [heq] at hx; simp at hx
    rw [if_neg hne]
  have hmean : ∀ (m : String) (k : Val),
      groupMean (dropMissingCat t) (categoryCol t) m k =
        groupMean t (categoryCol t) m k := by
    intro m k
    simp only [groupMean, hvals m k]
  refine ⟨?_, ?_, ?_, ?_⟩
  · simp only [barSeries, hc2, hkeys]
    congr 1
    congr 1
    apply List.map_congr_left
    intro k _
    rw [hmean]
  · simp only [pieSeries, hc2, hkeys]
    congr 1
    congr 1
    apply List.filterMap_congr
    intro k _
    rw [hmean]
  · rw [distinctCats, distinctCats, hc2, hkeys]
  · intro k
    rw [groupMean, groupMean]
    have hv : groupVals (dropMissingMetric t metric) (categoryCol t) metric k =
        groupVals t (categoryCol t) metric k := by
      rw [groupVals, groupVals]
      show ((t.rows.filter fun r => (toNum (getCell t.cols metric r)).isSome).filterMap
          fun r => if getCell t.cols (categoryCol t) r = some k
            then toNum (getCell t.cols metric r) else none) = _
      apply filter_filterMap_of_none
      intro x hx
      have hnone : toNum (getCell t.cols metric x) = none := by
        cases htn : toNum (getCell t.cols metric x) with
        | none => rfl
        | some v => rw [htn] at hx; simp at hx
      by_cases hcat : getCell t.cols (categoryCol t) x = some k
      · rw [if_pos hcat, hnone]
      · rw [if_neg hcat]
    rw [hv]

end App
